import Mathlib

/-!
Verification development for the discrete-event backtesting kernel
(event queue, portfolio ledger, admission-control risk engine).

The definitions below are a shallow embedding of the Python sources:
  - src/events/base.py        (event value types)
  - src/core/event_queue.py   (EVENT_PRIORITIES, PriorityEventQueue)
  - src/portfolio/state.py    (Position, PortfolioState.handle_fill / handle_market)
  - src/risk/engine.py        (RealRiskManager and its checks)

Python dicts are embedded as association lists with Python-dict update
semantics (update-in-place for an existing key, append for a new key,
lookup returns the first match); Python floats are embedded as exact
rationals; Python ints as unbounded integers; the logical timestamp as a
natural number.  A Python method that mutates `self` becomes a function
from the state to the new state; a method that can raise returns a result
type whose failure constructor carries the state at the moment of the
raise (Python leaves the partially mutated object in place when an
exception propagates).
-/

namespace TradingEngine

/-- Association-list lookup: first binding of the key, mirroring Python
dict lookup (keys are unique in every list this development builds). -/
def alookup {κ α : Type} [DecidableEq κ] : List (κ × α) → κ → Option α
  | [], _ => none
  | (k, v) :: rest, key => if k = key then some v else alookup rest key

/-- Association-list update with Python-dict semantics: an existing key is
updated in place (its position preserved), a new key is appended. -/
def aset {κ α : Type} [DecidableEq κ] : List (κ × α) → κ → α → List (κ × α)
  | [], key, val => [(key, val)]
  | (k, v) :: rest, key, val =>
      if k = key then (k, val) :: rest else (k, v) :: aset rest key val

/-- Association-list deletion: removes the first binding of the key,
mirroring Python `del d[key]` on a dict with unique keys. -/
def adel {κ α : Type} [DecidableEq κ] : List (κ × α) → κ → List (κ × α)
  | [], _ => []
  | (k, v) :: rest, key =>
      if k = key then rest else (k, v) :: adel rest key

/-- src/events/base.py: MarketEvent (an Observation). -/
structure MarketEvent where
  timestamp : Nat
  symbol : String
  price : Rat
deriving DecidableEq, Repr

/-- src/events/base.py: SignalEvent (an Intent). -/
structure SignalEvent where
  timestamp : Nat
  symbol : String
  direction : String
  price : Rat
deriving DecidableEq, Repr

/-- src/events/base.py: OrderEvent. -/
structure OrderEvent where
  timestamp : Nat
  symbol : String
  direction : String
  quantity : Int
  price : Rat
deriving DecidableEq, Repr

/-- src/events/base.py: FillEvent. -/
structure FillEvent where
  timestamp : Nat
  symbol : String
  direction : String
  quantity : Int
  fill_price : Rat
deriving DecidableEq, Repr

/-- src/portfolio/state.py: Position dataclass. -/
structure Position where
  quantity : Int
  avg_cost : Rat
deriving DecidableEq, Repr

/-- src/portfolio/state.py: PortfolioState (the Ledger). -/
structure PortfolioState where
  cash : Rat
  initial_cash : Rat
  positions : List (String × Position)
  realized_pnl : Rat
  trades : List FillEvent
  latest_prices : List (String × Rat)
  equity_curve : List Rat
  equity_by_timestamp : List (Nat × Rat)
deriving DecidableEq, Repr

/-- src/portfolio/state.py: PortfolioState.__init__(initial_cash). -/
def PortfolioState.init (initial_cash : Rat) : PortfolioState :=
  { cash := initial_cash
    initial_cash := initial_cash
    positions := []
    realized_pnl := 0
    trades := []
    latest_prices := []
    equity_curve := []
    equity_by_timestamp := [] }

/-- The mark-to-market value of the open positions: each position whose
symbol has a latest price contributes quantity × latest price, a symbol
with no latest price contributes nothing (the `if sym in latest_prices`
guard in the equity loops of state.py and engine.py). -/
def positionsValue (positions : List (String × Position))
    (latest_prices : List (String × Rat)) : Rat :=
  (positions.map (fun sp =>
    match alookup latest_prices sp.1 with
    | some p => (sp.2.quantity : Rat) * p
    | none => 0)).sum

/-- Result of PortfolioState.handle_fill.  `insufficientCash` carries the
ledger as it stands when the ValueError is raised: in the source the
latest-price update and the trade-history append have already happened at
that point and persist on the (in-place mutated) object. -/
inductive FillResult where
  | ok (l : PortfolioState)
  | insufficientCash (l : PortfolioState)
deriving DecidableEq, Repr

/-- The signed quantity of a fill: +quantity for BUY, -quantity otherwise
(state.py line 51). -/
def signedQty (event : FillEvent) : Int :=
  if event.direction = "BUY" then event.quantity else -event.quantity

/-- src/portfolio/state.py: PortfolioState.handle_fill, line by line. -/
def PortfolioState.handle_fill (self : PortfolioState) (event : FillEvent) :
    FillResult :=
  let symbol := event.symbol
  let price := event.fill_price
  -- update latest price for mark-to-market, append fill to trade history
  let self := { self with
    latest_prices := aset self.latest_prices symbol price
    trades := self.trades ++ [event] }
  let signed_qty : Int := signedQty event
  let cash_change : Rat := -(signed_qty : Rat) * price
  -- enforce cash invariant
  if self.cash + cash_change < 0 then
    .insufficientCash self
  else
    -- read (or default-create) the position record for this symbol
    let position := (alookup self.positions symbol).getD ⟨0, 0⟩
    -- if reducing or closing the position, realize pnl
    let realized_pnl :=
      if position.quantity ≠ 0 ∧ position.quantity * signed_qty < 0 then
        let closing_qty : Int := min |position.quantity| |signed_qty|
        let pnl_per_share : Rat := price - position.avg_cost
        self.realized_pnl + (closing_qty : Rat) * pnl_per_share *
          (if position.quantity > 0 then 1 else -1)
      else self.realized_pnl
    let new_qty := position.quantity + signed_qty
    let positions :=
      if new_qty = 0 then
        adel self.positions symbol
      else
        let new_avg_cost :=
          if position.quantity = 0 then price
          else (position.avg_cost * (position.quantity : Rat)
                + price * (signed_qty : Rat)) / (new_qty : Rat)
        aset self.positions symbol ⟨new_qty, new_avg_cost⟩
    let cash := self.cash + cash_change
    -- update equity immediately after the fill (mark-to-market)
    let equity := cash + positionsValue positions self.latest_prices
    .ok { self with
      positions := positions
      realized_pnl := realized_pnl
      cash := cash
      equity_by_timestamp := aset self.equity_by_timestamp event.timestamp equity }

/-- src/portfolio/state.py: PortfolioState.handle_market (pure
mark-to-market valuation; never raises). -/
def PortfolioState.handle_market (self : PortfolioState) (event : MarketEvent) :
    PortfolioState :=
  let latest_prices := aset self.latest_prices event.symbol event.price
  let equity := self.cash + positionsValue self.positions latest_prices
  { self with
    latest_prices := latest_prices
    equity_by_timestamp := aset self.equity_by_timestamp event.timestamp equity
    equity_curve := self.equity_curve ++ [equity] }

/-- Applies a list of fills in order; `none` as soon as one raises. -/
def applyFills : PortfolioState → List FillEvent → Option PortfolioState
  | l, [] => some l
  | l, f :: fs =>
      match l.handle_fill f with
      | .ok l2 => applyFills l2 fs
      | .insufficientCash _ => none

/-- src/risk/engine.py: one recorded rejection (the dict appended to
RealRiskManager.rejections).  The source interpolates the offending
numbers into the reason message; the embedding keeps the fixed text of
each message and elides the interpolated values. -/
structure Rejection where
  timestamp : Nat
  symbol : String
  direction : String
  price : Rat
  reason : String
  check : String
deriving DecidableEq, Repr

/-- src/risk/engine.py: RealRiskManager (its configuration and mutable
state; the class also owns a reference to the portfolio ledger). -/
structure RealRiskManager where
  portfolio : PortfolioState
  fixed_quantity : Int
  max_drawdown : Rat
  max_position_size : Option Rat
  max_position_pct : Rat
  max_total_exposure_pct : Rat
  max_positions : Option Nat
  rejections : List Rejection
  peak_equity : Rat
deriving DecidableEq, Repr

/-- src/risk/engine.py: RealRiskManager.__init__ with all configuration
arguments explicit (the Python signature defaults them). -/
def RealRiskManager.mk0 (portfolio : PortfolioState) (fixed_quantity : Int)
    (max_drawdown : Rat) (max_position_size : Option Rat)
    (max_position_pct : Rat) (max_total_exposure_pct : Rat)
    (max_positions : Option Nat) : RealRiskManager :=
  { portfolio := portfolio
    fixed_quantity := fixed_quantity
    max_drawdown := max_drawdown
    max_position_size := max_position_size
    max_position_pct := max_position_pct
    max_total_exposure_pct := max_total_exposure_pct
    max_positions := max_positions
    rejections := []
    peak_equity := portfolio.initial_cash }

/-- RealRiskManager.__init__ with the Python default arguments
(fixed_quantity=10, max_drawdown=0.10, max_position_size=None,
max_position_pct=0.20, max_total_exposure_pct=1.0, max_positions=None)
applied for everything but the portfolio and fixed_quantity. -/
def RealRiskManager.withDefaults (portfolio : PortfolioState)
    (fixed_quantity : Int) : RealRiskManager :=
  RealRiskManager.mk0 portfolio fixed_quantity (1/10) none (1/5) 1 none

namespace RealRiskManager

/-- src/risk/engine.py: RealRiskManager._get_current_equity.  A held
symbol missing from latest_prices is skipped, contributing zero. -/
def _get_current_equity (self : RealRiskManager) : Rat :=
  self.portfolio.cash +
    positionsValue self.portfolio.positions self.portfolio.latest_prices

/-- src/risk/engine.py: RealRiskManager._get_current_drawdown.  Returns
the (non-positive) drawdown fraction together with the risk-manager state
after the peak-equity update it performs. -/
def _get_current_drawdown (self : RealRiskManager) : Rat × RealRiskManager :=
  let current_equity := self._get_current_equity
  let self :=
    if current_equity > self.peak_equity then
      { self with peak_equity := current_equity }
    else self
  let drawdown :=
    if self.peak_equity > 0 then
      (current_equity - self.peak_equity) / self.peak_equity
    else 0
  (drawdown, self)

/-- src/risk/engine.py: RealRiskManager._check_drawdown_limit.  Returns
(passed, reason) plus the state after the peak update. -/
def _check_drawdown_limit (self : RealRiskManager) (_signal : SignalEvent) :
    (Bool × Option String) × RealRiskManager :=
  let dd := self._get_current_drawdown
  let current_dd := dd.1
  let self := dd.2
  let res : Bool × Option String :=
    if |current_dd| > self.max_drawdown then
      (false, some "Drawdown exceeds limit")
    else
      (true, none)
  (res, self)

/-- The total-exposure sum of RealRiskManager._check_position_size_limit:
`pos.quantity * latest_prices.get(sym, 0)` — a missing latest price is
silently valued at zero. -/
def totalExposure (positions : List (String × Position))
    (latest_prices : List (String × Rat)) : Rat :=
  (positions.map (fun sp =>
    (sp.2.quantity : Rat) * ((alookup latest_prices sp.1).getD 0))).sum

/-- src/risk/engine.py: RealRiskManager._check_position_size_limit. -/
def _check_position_size_limit (self : RealRiskManager)
    (signal : SignalEvent) : Bool × Option String :=
  let current_equity := self._get_current_equity
  let order_value := (self.fixed_quantity : Rat) * signal.price
  let sizeCapHit : Bool :=
    match self.max_position_size with
    | some m => decide (order_value > m)
    | none => false
  if sizeCapHit then
    (false, some "Order value exceeds max position size")
  else if current_equity > 0 ∧ order_value / current_equity > self.max_position_pct then
    (false, some "Position fraction of equity exceeds limit")
  else
    let total_exposure := totalExposure self.portfolio.positions
      self.portfolio.latest_prices
    let total_exposure :=
      if signal.direction = "BUY" then total_exposure + order_value
      else total_exposure
    if current_equity > 0 ∧ total_exposure / current_equity > self.max_total_exposure_pct then
      (false, some "Total exposure exceeds limit")
    else
      (true, none)

/-- src/risk/engine.py: RealRiskManager._check_cash_availability. -/
def _check_cash_availability (self : RealRiskManager)
    (signal : SignalEvent) : Bool × Option String :=
  if signal.direction = "BUY" ∧
      self.portfolio.cash < (self.fixed_quantity : Rat) * signal.price then
    (false, some "Insufficient cash")
  else
    (true, none)

/-- src/risk/engine.py: RealRiskManager._check_position_count_limit. -/
def _check_position_count_limit (self : RealRiskManager)
    (signal : SignalEvent) : Bool × Option String :=
  match self.max_positions with
  | some mp =>
      if signal.direction = "BUY" ∧
          alookup self.portfolio.positions signal.symbol = none ∧
          self.portfolio.positions.length ≥ mp then
        (false, some "Position count exceeds limit")
      else
        (true, none)
  | none => (true, none)

/-- First failing entry of the eagerly built checks list (the `for
check_name, (passed, reason) in checks` loop of handle_signal). -/
def firstFailure : List (String × Bool × Option String) →
    Option (String × Option String)
  | [] => none
  | (name, passed, reason) :: rest =>
      if passed then firstFailure rest else some (name, reason)

/-- src/risk/engine.py: RealRiskManager.handle_signal.  Updates the
portfolio latest price for the signal symbol first, evaluates the four
checks eagerly in their fixed order, records the first failure as a
rejection (returning no order), otherwise emits the fixed-quantity
order. -/
def handle_signal (self : RealRiskManager) (event : SignalEvent) :
    RealRiskManager × List OrderEvent :=
  let portfolio := { self.portfolio with
    latest_prices := aset self.portfolio.latest_prices event.symbol event.price }
  let self := { self with portfolio := portfolio }
  let ddOut := self._check_drawdown_limit event
  let ddRes := ddOut.1
  let self := ddOut.2
  let checks : List (String × Bool × Option String) :=
    [("drawdown", ddRes),
     ("position_size", self._check_position_size_limit event),
     ("cash", self._check_cash_availability event),
     ("position_count", self._check_position_count_limit event)]
  match firstFailure checks with
  | some (check_name, reason) =>
      ({ self with rejections := self.rejections ++
          [{ timestamp := event.timestamp
             symbol := event.symbol
             direction := event.direction
             price := event.price
             reason := reason.getD ""
             check := check_name }] }, [])
  | none =>
      (self,
       [{ timestamp := event.timestamp
          symbol := event.symbol
          direction := event.direction
          quantity := self.fixed_quantity
          price := event.price }])

end RealRiskManager

/-- src/core/event_queue.py: the closed union of the four event kinds the
queue schedules. -/
inductive Event where
  | market (e : MarketEvent)
  | signal (e : SignalEvent)
  | order (e : OrderEvent)
  | fill (e : FillEvent)
deriving DecidableEq, Repr

/-- The timestamp attribute read by PriorityEventQueue.put. -/
def Event.timestamp : Event → Nat
  | .market e => e.timestamp
  | .signal e => e.timestamp
  | .order e => e.timestamp
  | .fill e => e.timestamp

/-- src/core/event_queue.py: EVENT_PRIORITIES / get_event_priority.
Lower number = higher priority; the Python default 99 for unknown types
is unreachable here because the union of event kinds is closed. -/
def get_event_priority : Event → Nat
  | .market _ => 0
  | .signal _ => 1
  | .order _ => 2
  | .fill _ => 3

/-- One heap entry of PriorityEventQueue: the (timestamp, priority,
counter, event) tuple pushed by put(). -/
structure Entry where
  timestamp : Nat
  priority : Nat
  counter : Nat
  event : Event
deriving DecidableEq, Repr

/-- Lexicographic comparison of heap entries on (timestamp, priority,
counter), exactly the tuple order heapq uses (the event component is
never reached because counters are unique). -/
def keyLE (a b : Entry) : Bool :=
  decide (a.timestamp < b.timestamp) ||
    (a.timestamp == b.timestamp &&
      (decide (a.priority < b.priority) ||
        (a.priority == b.priority && decide (a.counter ≤ b.counter))))

/-- Strict lexicographic comparison of heap entries. -/
def keyLT (a b : Entry) : Bool :=
  decide (a.timestamp < b.timestamp) ||
    (a.timestamp == b.timestamp &&
      (decide (a.priority < b.priority) ||
        (a.priority == b.priority && decide (a.counter < b.counter))))

/-- src/core/event_queue.py: PriorityEventQueue state — the heap contents
as a multiset of entries (represented as a list) and the insertion
counter. -/
structure PriorityEventQueue where
  heap : List Entry
  counter : Nat
deriving DecidableEq, Repr

/-- PriorityEventQueue.__init__. -/
def PriorityEventQueue.empty : PriorityEventQueue := ⟨[], 0⟩

/-- src/core/event_queue.py: PriorityEventQueue.put — pushes the entry
(timestamp, priority, counter, event) and increments the counter. -/
def PriorityEventQueue.put (q : PriorityEventQueue) (e : Event) :
    PriorityEventQueue :=
  { heap := q.heap ++ [⟨e.timestamp, get_event_priority e, q.counter, e⟩]
    counter := q.counter + 1 }

/-- Extraction of the minimal entry (leftmost on ties, which cannot arise
as counters are unique): the behaviour heapq.heappop exposes on the heap
contents. Returns the minimum and the remaining entries. -/
def popMin : List Entry → Option (Entry × List Entry)
  | [] => none
  | x :: xs =>
      match popMin xs with
      | none => some (x, [])
      | some (m, rest) =>
          if keyLE x m then some (x, xs) else some (m, x :: rest)

/-- src/core/event_queue.py: PriorityEventQueue.get — pops the smallest
(timestamp, priority, counter) entry; `none` models the IndexError on an
empty queue. -/
def PriorityEventQueue.get (q : PriorityEventQueue) :
    Option (Event × PriorityEventQueue) :=
  match popMin q.heap with
  | none => none
  | some (m, rest) => some (m.event, ⟨rest, q.counter⟩)

/-- The remaining entries after extracting the minimum are one shorter. -/
theorem popMin_length_lt {l rest : List Entry} {m : Entry}
    (h : popMin l = some (m, rest)) : rest.length < l.length := by
  induction l generalizing m rest with
  | nil => simp [popMin] at h
  | cons x xs ih =>
    simp only [popMin] at h
    cases hx : popMin xs with
    | none =>
      rw [hx] at h
      simp only [Option.some.injEq, Prod.mk.injEq] at h
      obtain ⟨_, h2⟩ := h
      subst h2
      simp
    | some p =>
      obtain ⟨m2, r2⟩ := p
      rw [hx] at h
      by_cases hk : keyLE x m2
      · simp only [hk, if_true, Option.some.injEq, Prod.mk.injEq] at h
        obtain ⟨_, h2⟩ := h
        subst h2
        simp
      · simp only [hk, if_false, Option.some.injEq, Prod.mk.injEq,
          Bool.false_eq_true] at h
        obtain ⟨_, h2⟩ := h
        subst h2
        have := ih hx
        simp only [List.length_cons]
        omega

/-- The sequence of entries produced by repeatedly calling get() until
the queue is empty. -/
def drain (l : List Entry) : List Entry :=
  match h : popMin l with
  | none => []
  | some (m, rest) => m :: drain rest
termination_by l.length
decreasing_by
  exact popMin_length_lt h

/-- Tags a list of events with consecutive counters starting at n — the
heap contents produced by putting the events in order into a queue whose
counter is n. -/
def tagFrom (n : Nat) : List Event → List Entry
  | [] => []
  | e :: es => ⟨e.timestamp, get_event_priority e, n, e⟩ :: tagFrom (n + 1) es

/-- Puts a list of events into the empty queue in order. -/
def putAll (events : List Event) : PriorityEventQueue :=
  events.foldl PriorityEventQueue.put PriorityEventQueue.empty

/-- The risk-manager state after the latest-price write that opens
RealRiskManager.handle_signal (portfolio.latest_prices[symbol] = price). -/
def afterPriceUpdate (rm : RealRiskManager) (e : SignalEvent) :
    RealRiskManager :=
  { rm with portfolio := { rm.portfolio with
      latest_prices := aset rm.portfolio.latest_prices e.symbol e.price } }

/-- The risk-manager state after handle_signal has additionally run the
drawdown check (which may raise peak_equity). -/
def afterDrawdown (rm : RealRiskManager) (e : SignalEvent) : RealRiskManager :=
  ((afterPriceUpdate rm e)._check_drawdown_limit e).2

/-- The eagerly evaluated checks list handle_signal builds. -/
def checksOf (rm : RealRiskManager) (e : SignalEvent) :
    List (String × Bool × Option String) :=
  [("drawdown", ((afterPriceUpdate rm e)._check_drawdown_limit e).1),
   ("position_size", (afterDrawdown rm e)._check_position_size_limit e),
   ("cash", (afterDrawdown rm e)._check_cash_availability e),
   ("position_count", (afterDrawdown rm e)._check_position_count_limit e)]

/-- Scenario C of the spec: a RealRiskManager over a fresh ledger with
initial cash 500 and fixed_quantity 10, every other limit at its Python
default. -/
def scenarioCrm : RealRiskManager :=
  RealRiskManager.withDefaults (PortfolioState.init 500) 10

/-- Scenario C of the spec: a BUY signal at price 100 (order value
1000). -/
def scenarioCsig : SignalEvent := ⟨0, "X", "BUY", 100⟩

/-- Scenario C portfolio after handle_signal's latest-price write. -/
def scenarioCpf : PortfolioState :=
  { PortfolioState.init 500 with latest_prices := [("X", 100)] }

/-- Scenario B of the spec: max_drawdown 0.15, equity previously peaked
at 10500, cash crashed to 8900, no open positions. -/
def scenarioBrm : RealRiskManager :=
  { RealRiskManager.mk0 (PortfolioState.init 8900) 10 (3/20) none (1/5) 1
      none with peak_equity := 10500 }

/-- Scenario B of the spec: the subsequent intent. -/
def scenarioBsig : SignalEvent := ⟨0, "Y", "BUY", 50⟩

/-- A ledger holding 10 units of a symbol that has no latest price (no
prior Observation), with cash 100. -/
def missingPricePf : PortfolioState :=
  { PortfolioState.init 100 with positions := [("AAPL", ⟨10, 50⟩)] }

/-- A default risk manager over the missing-price ledger. -/
def missingPriceRm : RealRiskManager :=
  RealRiskManager.withDefaults missingPricePf 10

/-! ### Supporting lemmas -/

/-- handle_signal, re-expressed through the helper states above. -/
theorem handle_signal_eq (rm : RealRiskManager) (e : SignalEvent) :
    rm.handle_signal e =
      match RealRiskManager.firstFailure (checksOf rm e) with
      | some (check_name, reason) =>
          ({ afterDrawdown rm e with
              rejections := (afterDrawdown rm e).rejections ++
                [{ timestamp := e.timestamp
                   symbol := e.symbol
                   direction := e.direction
                   price := e.price
                   reason := reason.getD ""
                   check := check_name }] }, [])
      | none =>
          (afterDrawdown rm e,
           [{ timestamp := e.timestamp
              symbol := e.symbol
              direction := e.direction
              quantity := (afterDrawdown rm e).fixed_quantity
              price := e.price }]) := rfl

theorem alookup_aset_self {κ α : Type} [DecidableEq κ]
    (m : List (κ × α)) (k : κ) (v : α) :
    alookup (aset m k v) k = some v := by
  induction m with
  | nil => simp [aset, alookup]
  | cons p rest ih =>
    obtain ⟨pk, pv⟩ := p
    by_cases hk : pk = k
    · simp [aset, alookup, hk]
    · simp [aset, alookup, hk, ih]

theorem aset_aset_self {κ α : Type} [DecidableEq κ]
    (m : List (κ × α)) (k : κ) (v : α) :
    aset (aset m k v) k v = aset m k v := by
  induction m with
  | nil => simp [aset]
  | cons p rest ih =>
    obtain ⟨pk, pv⟩ := p
    by_cases hk : pk = k
    · simp [aset, hk]
    · simp [aset, hk, ih]

theorem mem_aset {κ α : Type} [DecidableEq κ] {m : List (κ × α)} {k : κ}
    {v : α} {x : κ × α} (hx : x ∈ aset m k v) : x ∈ m ∨ x = (k, v) := by
  induction m with
  | nil => simp [aset] at hx; simp [hx]
  | cons p rest ih =>
    obtain ⟨pk, pv⟩ := p
    by_cases hk : pk = k
    · simp only [aset, hk, if_true] at hx
      rcases List.mem_cons.mp hx with h | h
      · right; exact h
      · left; exact List.mem_cons_of_mem _ h
    · simp only [aset, hk, if_false] at hx
      rcases List.mem_cons.mp hx with h | h
      · left; rw [h]; exact List.mem_cons_self _ _
      · rcases ih h with h2 | h2
        · left; exact List.mem_cons_of_mem _ h2
        · right; exact h2

theorem mem_adel {κ α : Type} [DecidableEq κ] {m : List (κ × α)} {k : κ}
    {x : κ × α} (hx : x ∈ adel m k) : x ∈ m := by
  induction m with
  | nil => simp [adel] at hx
  | cons p rest ih =>
    obtain ⟨pk, pv⟩ := p
    by_cases hk : pk = k
    · simp only [adel, hk, if_true] at hx
      exact List.mem_cons_of_mem _ hx
    · simp only [adel, hk, if_false] at hx
      rcases List.mem_cons.mp hx with h | h
      · rw [h]; exact List.mem_cons_self _ _
      · exact List.mem_cons_of_mem _ (ih h)

theorem keyLE_total {a b : Entry} (h : keyLE a b = false) : keyLE b a = true := by
  simp only [keyLE, Bool.or_eq_true, Bool.or_eq_false_iff, Bool.and_eq_true,
    Bool.and_eq_false_iff, decide_eq_true_eq, decide_eq_false_iff_not,
    beq_iff_eq, beq_eq_false_iff_ne, ne_eq] at h ⊢
  omega

theorem keyLE_trans {a b c : Entry} (hab : keyLE a b = true)
    (hbc : keyLE b c = true) : keyLE a c = true := by
  simp only [keyLE, Bool.or_eq_true, Bool.and_eq_true, decide_eq_true_eq,
    beq_iff_eq] at hab hbc ⊢
  omega

theorem keyLE_ne_counter {a b : Entry} (hab : keyLE a b = true)
    (hne : a.counter ≠ b.counter) : keyLT a b = true := by
  simp only [keyLE, keyLT, Bool.or_eq_true, Bool.and_eq_true,
    decide_eq_true_eq, beq_iff_eq] at hab ⊢
  omega

theorem popMin_eq_none {l : List Entry} (h : popMin l = none) : l = [] := by
  cases l with
  | nil => rfl
  | cons x xs =>
    simp only [popMin] at h
    cases hx : popMin xs with
    | none => rw [hx] at h; simp at h
    | some p => obtain ⟨m, r⟩ := p; rw [hx] at h; by_cases hk : keyLE x m <;>
        simp [hk] at h

theorem popMin_perm {l rest : List Entry} {m : Entry}
    (h : popMin l = some (m, rest)) : l.Perm (m :: rest) := by
  induction l generalizing m rest with
  | nil => simp [popMin] at h
  | cons x xs ih =>
    simp only [popMin] at h
    cases hx : popMin xs with
    | none =>
      rw [hx] at h
      simp only [Option.some.injEq, Prod.mk.injEq] at h
      obtain ⟨h1, h2⟩ := h
      rw [← h1, ← h2, popMin_eq_none hx]
    | some p =>
      obtain ⟨m2, r2⟩ := p
      rw [hx] at h
      by_cases hk : keyLE x m2
      · simp only [hk, if_true, Option.some.injEq, Prod.mk.injEq] at h
        obtain ⟨h1, h2⟩ := h
        rw [← h1, ← h2]
      · simp only [hk, if_false, Option.some.injEq, Prod.mk.injEq,
          Bool.false_eq_true] at h
        obtain ⟨h1, h2⟩ := h
        rw [← h1, ← h2]
        exact ((ih hx).cons x).trans (List.Perm.swap m2 x r2)

theorem popMin_min {l rest : List Entry} {m : Entry}
    (h : popMin l = some (m, rest)) : ∀ b ∈ rest, keyLE m b = true := by
  induction l generalizing m rest with
  | nil => simp [popMin] at h
  | cons x xs ih =>
    simp only [popMin] at h
    cases hx : popMin xs with
    | none =>
      rw [hx] at h
      simp only [Option.some.injEq, Prod.mk.injEq] at h
      obtain ⟨h1, h2⟩ := h
      rw [← h2]
      intro b hb
      simp at hb
    | some p =>
      obtain ⟨m2, r2⟩ := p
      rw [hx] at h
      by_cases hk : keyLE x m2
      · simp only [hk, if_true, Option.some.injEq, Prod.mk.injEq] at h
        obtain ⟨h1, h2⟩ := h
        rw [← h1, ← h2]
        intro b hb
        rcases (List.Perm.mem_iff (popMin_perm hx)).mp hb with h3
        rcases List.mem_cons.mp h3 with h4 | h4
        · rw [h4]; exact hk
        · exact keyLE_trans hk (ih hx b h4)
      · simp only [hk, if_false, Option.some.injEq, Prod.mk.injEq,
          Bool.false_eq_true] at h
        obtain ⟨h1, h2⟩ := h
        rw [← h1, ← h2]
        intro b hb
        rcases List.mem_cons.mp hb with h4 | h4
        · rw [h4]; exact keyLE_total (by simpa using hk)
        · exact ih hx b h4

theorem drain_perm (l : List Entry) : (drain l).Perm l := by
  rw [drain]
  split
  · rename_i h
    rw [popMin_eq_none h]
  · rename_i m rest h
    exact ((drain_perm rest).cons m).trans (popMin_perm h).symm
termination_by l.length
decreasing_by exact popMin_length_lt (by assumption)

theorem drain_sorted (l : List Entry) :
    (drain l).Pairwise (fun a b => keyLE a b = true) := by
  rw [drain]
  split
  · exact List.Pairwise.nil
  · rename_i m rest h
    refine List.Pairwise.cons ?_ (drain_sorted rest)
    intro b hb
    exact popMin_min h b ((drain_perm rest).subset hb)
termination_by l.length
decreasing_by exact popMin_length_lt (by assumption)

theorem foldl_put (q : PriorityEventQueue) (evs : List Event) :
    (evs.foldl PriorityEventQueue.put q).heap = q.heap ++ tagFrom q.counter evs ∧
    (evs.foldl PriorityEventQueue.put q).counter = q.counter + evs.length := by
  induction evs generalizing q with
  | nil => simp [tagFrom]
  | cons e es ih =>
    simp only [List.foldl_cons]
    obtain ⟨h1, h2⟩ := ih (q.put e)
    refine ⟨?_, ?_⟩
    · rw [h1]
      simp [PriorityEventQueue.put, tagFrom]
    · rw [h2]
      simp only [PriorityEventQueue.put, List.length_cons]
      omega

theorem putAll_heap (evs : List Event) : (putAll evs).heap = tagFrom 0 evs := by
  simpa [putAll, PriorityEventQueue.empty] using (foldl_put PriorityEventQueue.empty evs).1

theorem tagFrom_mem_counter {n : Nat} {evs : List Event} {b : Entry}
    (hb : b ∈ tagFrom n evs) : n ≤ b.counter := by
  induction evs generalizing n with
  | nil => simp [tagFrom] at hb
  | cons e es ih =>
    simp only [tagFrom] at hb
    rcases List.mem_cons.mp hb with h | h
    · rw [h]
    · exact Nat.le_of_succ_le (ih h)

theorem tagFrom_counter_lt (n : Nat) (evs : List Event) :
    (tagFrom n evs).Pairwise (fun a b => a.counter < b.counter) := by
  induction evs generalizing n with
  | nil => exact List.Pairwise.nil
  | cons e es ih =>
    refine List.Pairwise.cons ?_ (ih (n + 1))
    intro b hb
    have := tagFrom_mem_counter hb
    simp only []
    omega

theorem tagFrom_map_event (n : Nat) (evs : List Event) :
    (tagFrom n evs).map Entry.event = evs := by
  induction evs generalizing n with
  | nil => rfl
  | cons e es ih => simp [tagFrom, ih]

theorem drawdown_snd_maxdd (rm : RealRiskManager) :
    (rm._get_current_drawdown).2.max_drawdown = rm.max_drawdown := by
  unfold RealRiskManager._get_current_drawdown
  simp only []
  by_cases h : rm._get_current_equity > rm.peak_equity
  · rw [if_pos h]
  · rw [if_neg h]

theorem drawdown_fst (rm : RealRiskManager) :
    (rm._get_current_drawdown).1 =
      if max rm.peak_equity rm._get_current_equity > 0 then
        (rm._get_current_equity - max rm.peak_equity rm._get_current_equity) /
          max rm.peak_equity rm._get_current_equity
      else 0 := by
  unfold RealRiskManager._get_current_drawdown
  simp only []
  by_cases h : rm._get_current_equity > rm.peak_equity
  · rw [if_pos h, max_eq_right h.le]
  · rw [if_neg h, max_eq_left (not_lt.mp h)]

theorem check_drawdown_fst (rm : RealRiskManager) (e : SignalEvent) :
    (rm._check_drawdown_limit e).1 =
      if |(rm._get_current_drawdown).1| > rm.max_drawdown then
        (false, some "Drawdown exceeds limit")
      else (true, none) := by
  unfold RealRiskManager._check_drawdown_limit
  simp only []
  rw [drawdown_snd_maxdd]

theorem check_drawdown_snd (rm : RealRiskManager) (e : SignalEvent) :
    (rm._check_drawdown_limit e).2 = (rm._get_current_drawdown).2 := rfl

theorem afterDrawdown_eq (rm : RealRiskManager) (e : SignalEvent) :
    afterDrawdown rm e =
      if (afterPriceUpdate rm e)._get_current_equity > rm.peak_equity then
        { afterPriceUpdate rm e with
            peak_equity := (afterPriceUpdate rm e)._get_current_equity }
      else afterPriceUpdate rm e := rfl

theorem afterDrawdown_peak (rm : RealRiskManager) (e : SignalEvent) :
    (afterDrawdown rm e).peak_equity =
      max rm.peak_equity ((afterPriceUpdate rm e)._get_current_equity) := by
  rw [afterDrawdown_eq]
  by_cases h : (afterPriceUpdate rm e)._get_current_equity > rm.peak_equity
  · rw [if_pos h]
    exact (max_eq_right h.le).symm
  · rw [if_neg h]
    exact (max_eq_left (not_lt.mp h)).symm

theorem afterDrawdown_portfolio (rm : RealRiskManager) (e : SignalEvent) :
    (afterDrawdown rm e).portfolio = (afterPriceUpdate rm e).portfolio := by
  rw [afterDrawdown_eq]
  by_cases h : (afterPriceUpdate rm e)._get_current_equity > rm.peak_equity
  · rw [if_pos h]
  · rw [if_neg h]

theorem afterDrawdown_rejections (rm : RealRiskManager) (e : SignalEvent) :
    (afterDrawdown rm e).rejections = rm.rejections := by
  rw [afterDrawdown_eq]
  by_cases h : (afterPriceUpdate rm e)._get_current_equity > rm.peak_equity
  · rw [if_pos h]
    rfl
  · rw [if_neg h]
    rfl

theorem afterDrawdown_maxdd (rm : RealRiskManager) (e : SignalEvent) :
    (afterDrawdown rm e).max_drawdown = rm.max_drawdown := by
  rw [afterDrawdown_eq]
  by_cases h : (afterPriceUpdate rm e)._get_current_equity > rm.peak_equity
  · rw [if_pos h]
    rfl
  · rw [if_neg h]
    rfl

theorem handle_signal_portfolio (rm : RealRiskManager) (e : SignalEvent) :
    ((rm.handle_signal e).1).portfolio = (afterPriceUpdate rm e).portfolio := by
  rw [handle_signal_eq]
  cases hff : RealRiskManager.firstFailure (checksOf rm e) with
  | none =>
    simp only []
    exact afterDrawdown_portfolio rm e
  | some p =>
    obtain ⟨n, r⟩ := p
    simp only []
    exact afterDrawdown_portfolio rm e

theorem handle_signal_peak (rm : RealRiskManager) (e : SignalEvent) :
    ((rm.handle_signal e).1).peak_equity =
      max rm.peak_equity ((afterPriceUpdate rm e)._get_current_equity) := by
  rw [handle_signal_eq]
  cases hff : RealRiskManager.firstFailure (checksOf rm e) with
  | none =>
    simp only []
    exact afterDrawdown_peak rm e
  | some p =>
    obtain ⟨n, r⟩ := p
    simp only []
    exact afterDrawdown_peak rm e

theorem afterPriceUpdate_peak (rm : RealRiskManager) (e : SignalEvent) :
    (afterPriceUpdate rm e).peak_equity = rm.peak_equity := rfl

theorem afterPriceUpdate_maxdd (rm : RealRiskManager) (e : SignalEvent) :
    (afterPriceUpdate rm e).max_drawdown = rm.max_drawdown := rfl

theorem firstFailure_mem {l : List (String × Bool × Option String)}
    {n : String} {r : Option String}
    (h : RealRiskManager.firstFailure l = some (n, r)) :
    ∃ p, (n, p) ∈ l := by
  induction l with
  | nil => simp [RealRiskManager.firstFailure] at h
  | cons c rest ih =>
    obtain ⟨name, passed, reason⟩ := c
    simp only [RealRiskManager.firstFailure] at h
    by_cases hp : passed
    · rw [if_pos hp] at h
      obtain ⟨p, hmem⟩ := ih h
      exact ⟨p, List.mem_cons_of_mem _ hmem⟩
    · rw [if_neg hp] at h
      simp only [Option.some.injEq, Prod.mk.injEq] at h
      exact ⟨(passed, reason), by rw [h.1]; exact List.mem_cons_self _ _⟩

theorem scenarioC_afterPrice :
    afterPriceUpdate scenarioCrm scenarioCsig =
      RealRiskManager.withDefaults scenarioCpf 10 := by
  simp [afterPriceUpdate, scenarioCrm, scenarioCsig, scenarioCpf,
    RealRiskManager.withDefaults, RealRiskManager.mk0, PortfolioState.init,
    aset]

theorem scenarioC_equity :
    (RealRiskManager.withDefaults scenarioCpf 10)._get_current_equity
      = 500 := by
  norm_num [RealRiskManager._get_current_equity,
    RealRiskManager.withDefaults, RealRiskManager.mk0, scenarioCpf,
    PortfolioState.init, positionsValue]

theorem scenarioC_drawdown_check :
    (RealRiskManager.withDefaults scenarioCpf 10)._check_drawdown_limit
        scenarioCsig
      = ((true, none), RealRiskManager.withDefaults scenarioCpf 10) := by
  have hpk : (RealRiskManager.withDefaults scenarioCpf 10).peak_equity
      = 500 := rfl
  have hmd : (RealRiskManager.withDefaults scenarioCpf 10).max_drawdown
      = 1/10 := rfl
  unfold RealRiskManager._check_drawdown_limit
    RealRiskManager._get_current_drawdown
  rw [scenarioC_equity]
  norm_num [hpk, hmd]

theorem scenarioC_position_size_check :
    (RealRiskManager.withDefaults scenarioCpf 10)._check_position_size_limit
        scenarioCsig
      = (false, some "Position fraction of equity exceeds limit") := by
  unfold RealRiskManager._check_position_size_limit
  rw [scenarioC_equity]
  norm_num [RealRiskManager.withDefaults, RealRiskManager.mk0, scenarioCsig]

theorem scenarioC_result :
    scenarioCrm.handle_signal scenarioCsig =
      ({ RealRiskManager.withDefaults scenarioCpf 10 with
          rejections := [{ timestamp := 0
                           symbol := "X"
                           direction := "BUY"
                           price := 100
                           reason := "Position fraction of equity exceeds limit"
                           check := "position_size" }] }, []) := by
  have hafterDD : afterDrawdown scenarioCrm scenarioCsig
      = RealRiskManager.withDefaults scenarioCpf 10 := by
    unfold afterDrawdown
    rw [scenarioC_afterPrice, scenarioC_drawdown_check]
  have hff : RealRiskManager.firstFailure (checksOf scenarioCrm scenarioCsig)
      = some ("position_size",
          some "Position fraction of equity exceeds limit") := by
    simp only [checksOf]
    rw [scenarioC_afterPrice, scenarioC_drawdown_check, hafterDD,
      scenarioC_position_size_check]
    simp [RealRiskManager.firstFailure]
  rw [handle_signal_eq, hff]
  simp only []
  rw [hafterDD]
  rfl

/-! ### Claim theorems -/

/-- C1: the scheduler dequeues events in the total order (logical_time
ascending, type precedence ascending with MarketEvent < SignalEvent <
OrderEvent < FillEvent, insertion sequence ascending).  For every
sequence of put() calls, draining the PriorityEventQueue by repeated
get() yields: (i) the put events, each exactly once; (ii) exactly the
entries tagged with their put index as insertion counter; (iii) a
sequence strictly sorted by the lexicographic key (timestamp,
type-priority, insertion counter) — hence at a given timestamp all
MarketEvents (priority 0) exit before any SignalEvent (1), those before
any OrderEvent (2), those before any FillEvent (3); (iv) timestamp ties
exit in type-priority order; (v) exact (timestamp, type) ties exit in
put (FIFO) order, by insertion counter. -/
theorem c1_scheduler_total_order (events : List Event) :
    ((drain (putAll events).heap).map Entry.event).Perm events ∧
    (drain (putAll events).heap).Perm (tagFrom 0 events) ∧
    (drain (putAll events).heap).Pairwise (fun a b => keyLT a b = true) ∧
    (drain (putAll events).heap).Pairwise (fun a b =>
      a.timestamp = b.timestamp → a.priority ≤ b.priority) ∧
    (drain (putAll events).heap).Pairwise (fun a b =>
      a.timestamp = b.timestamp → a.priority = b.priority →
        a.counter < b.counter) := by
  have hheap := putAll_heap events
  have hperm : (drain (putAll events).heap).Perm (tagFrom 0 events) := by
    rw [hheap]
    exact drain_perm _
  have hsorted := drain_sorted (putAll events).heap
  have hne : (drain (putAll events).heap).Pairwise
      (fun a b => a.counter ≠ b.counter) :=
    List.Pairwise.perm
      ((tagFrom_counter_lt 0 events).imp (fun h => Nat.ne_of_lt h))
      hperm.symm (fun h => Ne.symm h)
  have hlt : (drain (putAll events).heap).Pairwise
      (fun a b => keyLT a b = true) :=
    (hsorted.and hne).imp (fun h => keyLE_ne_counter h.1 h.2)
  refine ⟨?_, hperm, hlt, ?_, ?_⟩
  · have hmap := hperm.map Entry.event
    rwa [tagFrom_map_event] at hmap
  · refine hlt.imp (fun h => ?_)
    intro hts
    simp only [keyLT, Bool.or_eq_true, Bool.and_eq_true, decide_eq_true_eq,
      beq_iff_eq] at h
    omega
  · refine hlt.imp (fun h => ?_)
    intro hts hp
    simp only [keyLT, Bool.or_eq_true, Bool.and_eq_true, decide_eq_true_eq,
      beq_iff_eq] at h
    omega

/-- C2 (amended): handle_fill raises insufficient-cash exactly when
cash + cash_change < 0 with cash_change = -signed_quantity * fill_price;
on failure cash, positions, realized_pnl and both equity series are
untouched, but the fill has already been appended to the trade history
and latest_prices[symbol] has already been set to the fill price; on
success cash is non-negative afterwards. -/
theorem c2_insufficient_cash_amended (l : PortfolioState) (e : FillEvent) :
    ((∃ l2, l.handle_fill e = .insufficientCash l2) ↔
      l.cash + -((signedQty e : Int) : Rat) * e.fill_price < 0)
    ∧ (∀ l2, l.handle_fill e = .insufficientCash l2 →
        l2.cash = l.cash ∧ l2.positions = l.positions ∧
        l2.realized_pnl = l.realized_pnl ∧
        l2.equity_by_timestamp = l.equity_by_timestamp ∧
        l2.equity_curve = l.equity_curve ∧
        l2.trades = l.trades ++ [e] ∧
        l2.latest_prices = aset l.latest_prices e.symbol e.fill_price)
    ∧ (∀ l2, l.handle_fill e = .ok l2 → 0 ≤ l2.cash) := by
  unfold PortfolioState.handle_fill
  by_cases hc : l.cash + -((signedQty e : Int) : Rat) * e.fill_price < 0
  · rw [if_pos hc]
    refine ⟨⟨fun _ => hc, fun _ => ⟨_, rfl⟩⟩, ?_, ?_⟩
    · intro l2 h
      injection h with h
      subst h
      simp
    · intro l2 h
      exact absurd h (by simp)
  · rw [if_neg hc]
    refine ⟨⟨?_, fun h => absurd h hc⟩, ?_, ?_⟩
    · rintro ⟨l2, h⟩
      exact absurd h (by simp)
    · intro l2 h
      exact absurd h (by simp)
    · intro l2 h
      injection h with h
      subst h
      simp only []
      linarith [not_lt.mp hc]

/-- C2 counterexample to the claim as stated: on a fill the Ledger
cannot afford, handle_fill fails but the trade history and latest_prices
have already been mutated — the failure is not all-or-nothing. -/
theorem c2_counterexample :
    (PortfolioState.init 0).handle_fill ⟨1, "S", "BUY", 1, 1⟩ =
      .insufficientCash { PortfolioState.init 0 with
        latest_prices := [("S", 1)],
        trades := [⟨1, "S", "BUY", 1, 1⟩] }
    ∧ ([⟨1, "S", "BUY", 1, 1⟩] : List FillEvent) ≠ (PortfolioState.init 0).trades := by
  constructor
  · norm_num [PortfolioState.handle_fill, PortfolioState.init, aset, signedQty]
  · simp [PortfolioState.init]

/-- C2 witness: the amended theorem applied at a concrete rejected fill. -/
theorem c2_insufficient_cash_amended_witness :
    (∃ l2, (PortfolioState.init 0).handle_fill ⟨1, "S", "BUY", 1, 1⟩ =
      .insufficientCash l2 ∧ l2.cash = 0 ∧ l2.trades = [⟨1, "S", "BUY", 1, 1⟩]) := by
  have hcond : (PortfolioState.init 0).cash +
      -((signedQty ⟨1, "S", "BUY", 1, 1⟩ : Int) : Rat) * (1 : Rat) < 0 := by
    norm_num [PortfolioState.init, signedQty]
  obtain ⟨l2, h⟩ :=
    (c2_insufficient_cash_amended (PortfolioState.init 0) ⟨1, "S", "BUY", 1, 1⟩).1.mpr hcond
  have hframe :=
    (c2_insufficient_cash_amended (PortfolioState.init 0) ⟨1, "S", "BUY", 1, 1⟩).2.1 l2 h
  refine ⟨l2, h, ?_, ?_⟩
  · rw [hframe.1]
    norm_num [PortfolioState.init]
  · rw [hframe.2.2.2.2.2.1]
    norm_num [PortfolioState.init]

/-- C3: round-trip accounting from a flat ledger with initial cash C —
an accepted BUY of N at P leaves cash C - N*P, a position of N at
average cost P and no realized pnl; a subsequent accepted SELL of N at Q
leaves realized_pnl = N*(Q - P), cash = C + N*(Q - P) and no position
record for the symbol. -/
theorem c3_round_trip (C P Q : Rat) (N : Int) (s : String) (t1 t2 : Nat)
    (hN : 0 < N) (hbuy : 0 ≤ C - (N : Rat) * P)
    (hsell : 0 ≤ C - (N : Rat) * P + (N : Rat) * Q) :
    ∃ l1, (PortfolioState.init C).handle_fill ⟨t1, s, "BUY", N, P⟩ = .ok l1 ∧
      l1.cash = C - (N : Rat) * P ∧
      alookup l1.positions s = some ⟨N, P⟩ ∧
      l1.realized_pnl = 0 ∧
      ∃ l2, l1.handle_fill ⟨t2, s, "SELL", N, Q⟩ = .ok l2 ∧
        l2.cash = C + (N : Rat) * (Q - P) ∧
        l2.realized_pnl = (N : Rat) * (Q - P) ∧
        alookup l2.positions s = none := by
  have hNne : N ≠ 0 := hN.ne'
  have hsqB : signedQty ⟨t1, s, "BUY", N, P⟩ = N := by
    unfold signedQty
    rw [if_pos rfl]
  have hsqS : signedQty ⟨t2, s, "SELL", N, Q⟩ = -N := by
    unfold signedQty
    rw [if_neg (show ("SELL" : String) ≠ "BUY" from by decide)]
  unfold PortfolioState.handle_fill
  rw [hsqB]
  rw [if_neg (show ¬((PortfolioState.init C).cash + -((N : Int) : Rat) * P < 0)
    from by simp only [PortfolioState.init]; linarith)]
  rw [show alookup (PortfolioState.init C).positions s = none from rfl]
  rw [show (Option.getD (none : Option Position) ⟨0, 0⟩) = ⟨0, 0⟩ from rfl]
  simp only [PortfolioState.init]
  rw [if_neg (show ¬((0 : Int) ≠ 0 ∧ (0 : Int) * N < 0) from by simp)]
  rw [if_neg (show ¬((0 : Int) + N = 0) from by omega)]
  rw [if_pos trivial]
  rw [show aset ([] : List (String × Position)) s ⟨0 + N, P⟩ = [(s, ⟨0 + N, P⟩)]
    from by simp [aset]]
  refine ⟨_, rfl, ?_, ?_, ?_, ?_⟩
  · show C + -((N : Int) : Rat) * P = C - (N : Rat) * P
    ring
  · show alookup [(s, (⟨0 + N, P⟩ : Position))] s = some ⟨N, P⟩
    simp [alookup]
  · rfl
  · rw [hsqS]
    rw [if_neg (show ¬((C + -((N : Int) : Rat) * P) +
        -(((-N : Int)) : Rat) * Q < 0) from by push_cast; linarith)]
    rw [show alookup [(s, (⟨0 + N, P⟩ : Position))] s = some ⟨0 + N, P⟩ from by
      simp [alookup]]
    rw [show (Option.getD (some (⟨0 + N, P⟩ : Position)) ⟨0, 0⟩) = ⟨0 + N, P⟩
      from rfl]
    simp only []
    rw [if_pos (show ((0 : Int) + N ≠ 0) ∧ ((0 : Int) + N) * (-N) < 0 from by
      refine ⟨by omega, ?_⟩
      simp only [zero_add, mul_neg, neg_lt_zero]
      exact mul_pos hN hN)]
    rw [if_pos (show (0 : Int) + N + -N = 0 from by omega)]
    rw [show ((|(0 : Int) + N| ⊓ |(-N : Int)|) : Int) = N from by
      simp [abs_of_pos hN]]
    rw [if_pos (show (0 : Int) + N > 0 from by omega)]
    rw [show adel [(s, (⟨0 + N, P⟩ : Position))] s = [] from by simp [adel]]
    refine ⟨_, rfl, ?_, ?_, ?_⟩
    · show C + -((N : Int) : Rat) * P + -(((-N : Int)) : Rat) * Q
        = C + (N : Rat) * (Q - P)
      push_cast
      ring
    · show (0 : Rat) + ((N : Int) : Rat) * (Q - P) * 1 = (N : Rat) * (Q - P)
      ring
    · show alookup ([] : List (String × Position)) s = none
      rfl

/-- C3 witness: Scenario A — initial cash 10000, BUY 10 @ 97 then
SELL 10 @ 100 gives cash 9030 / position (10, 97), then cash 10030,
realized pnl 30 and no position. -/
theorem c3_round_trip_witness :
    (0 : Int) < 10 ∧ (0 : Rat) ≤ 10000 - ((10 : Int) : Rat) * 97 ∧
    (0 : Rat) ≤ 10000 - ((10 : Int) : Rat) * 97 + ((10 : Int) : Rat) * 100 ∧
    (∃ l1, (PortfolioState.init 10000).handle_fill
        ⟨1, "S", "BUY", (10 : Int), 97⟩ = .ok l1 ∧
      l1.cash = 10000 - ((10 : Int) : Rat) * 97 ∧
      alookup l1.positions "S" = some ⟨10, 97⟩ ∧
      l1.realized_pnl = 0 ∧
      ∃ l2, l1.handle_fill ⟨2, "S", "SELL", 10, 100⟩ = .ok l2 ∧
        l2.cash = 10000 + ((10 : Int) : Rat) * (100 - 97) ∧
        l2.realized_pnl = ((10 : Int) : Rat) * (100 - 97) ∧
        alookup l2.positions "S" = none) :=
  ⟨by norm_num, by norm_num, by norm_num,
   c3_round_trip 10000 97 100 10 "S" 1 2 (by norm_num) (by norm_num)
     (by norm_num)⟩

/-- C4: evaluation of the flip-through-zero case the claim describes —
long 10 at average cost 97, then SELL 15 @ 100.  The volume-weighted
blend leaves the surviving short of 5 with average_cost 106, not the
fill price 100, so the blend does not reprice the remaining side at the
flipping fill's price. -/
theorem c4_flip_avg_cost_not_fill_price :
    ∃ l1 l2,
      (PortfolioState.init 10000).handle_fill ⟨1, "S", "BUY", 10, 97⟩ = .ok l1 ∧
      alookup l1.positions "S" = some ⟨10, 97⟩ ∧
      l1.handle_fill ⟨2, "S", "SELL", 15, 100⟩ = .ok l2 ∧
      alookup l2.positions "S" = some ⟨-5, 106⟩ ∧
      (106 : Rat) ≠ 100 := by
  have h1 : (PortfolioState.init 10000).handle_fill ⟨1, "S", "BUY", 10, 97⟩ =
      .ok ⟨9030, 10000, [("S", ⟨10, 97⟩)], 0, [⟨1, "S", "BUY", 10, 97⟩],
        [("S", 97)], [], [(1, 10000)]⟩ := by
    norm_num [PortfolioState.handle_fill, PortfolioState.init, aset, alookup,
      signedQty, positionsValue]
  have h2 : (⟨9030, 10000, [("S", ⟨10, 97⟩)], 0, [⟨1, "S", "BUY", 10, 97⟩],
        [("S", 97)], [], [(1, 10000)]⟩ : PortfolioState).handle_fill
        ⟨2, "S", "SELL", 15, 100⟩ =
      .ok ⟨10530, 10000, [("S", ⟨-5, 106⟩)], 30,
        [⟨1, "S", "BUY", 10, 97⟩, ⟨2, "S", "SELL", 15, 100⟩],
        [("S", 100)], [], [(1, 10000), (2, 10030)]⟩ := by
    have hS : (("SELL" : String) = "BUY") = False :=
      eq_false (by decide)
    norm_num [PortfolioState.handle_fill, aset, alookup, signedQty,
      positionsValue, hS]
  exact ⟨_, _, h1, by simp [alookup], h2, by simp [alookup], by norm_num⟩

/-- handle_fill never stores a position record with quantity 0: when it
succeeds, every record of the new positions map has nonzero quantity
provided every record of the old map did. -/
theorem handle_fill_preserves_closure {l l2 : PortfolioState} {e : FillEvent}
    (hinv : ∀ sp ∈ l.positions, sp.2.quantity ≠ 0)
    (h : l.handle_fill e = .ok l2) :
    ∀ sp ∈ l2.positions, sp.2.quantity ≠ 0 := by
  unfold PortfolioState.handle_fill at h
  simp only [] at h
  by_cases hc : l.cash + -((signedQty e : Int) : Rat) * e.fill_price < 0
  · rw [if_pos hc] at h
    exact absurd h (by simp)
  · rw [if_neg hc] at h
    simp only [FillResult.ok.injEq] at h
    subst h
    simp only []
    by_cases hq :
      ((alookup l.positions e.symbol).getD ⟨0, 0⟩).quantity + signedQty e = 0
    · rw [if_pos hq]
      intro sp hsp
      exact hinv sp (mem_adel hsp)
    · rw [if_neg hq]
      intro sp hsp
      rcases mem_aset hsp with hmem | heq
      · exact hinv sp hmem
      · rw [heq]
        exact hq

/-- C7: position-closure invariant — for every sequence of accepted
fills of positive quantity applied from a ledger whose positions map has
no zero-quantity record, the resulting positions map has no
zero-quantity record after every application (a symbol whose quantity
reaches 0 is deleted). -/
theorem c7_position_closure (l : PortfolioState) (fills : List FillEvent)
    (hq : ∀ f ∈ fills, 0 < f.quantity)
    (hinv : ∀ sp ∈ l.positions, sp.2.quantity ≠ 0) :
    ∀ l2, applyFills l fills = some l2 → ∀ sp ∈ l2.positions,
      sp.2.quantity ≠ 0 := by
  induction fills generalizing l with
  | nil =>
    intro l2 h
    simp only [applyFills, Option.some.injEq] at h
    subst h
    exact hinv
  | cons f fs ih =>
    intro l2 h
    simp only [applyFills] at h
    cases hf : l.handle_fill f with
    | ok lmid =>
      rw [hf] at h
      exact ih lmid (fun g hg => hq g (List.mem_cons_of_mem _ hg))
        (handle_fill_preserves_closure hinv hf) l2 h
    | insufficientCash lmid =>
      rw [hf] at h
      simp at h

/-- C7 witness: the invariant applied to a concrete accepted
buy-then-sell sequence from a fresh ledger. -/
theorem c7_position_closure_witness :
    (∀ f ∈ ([⟨1, "A", "BUY", 1, 10⟩, ⟨2, "A", "SELL", 1, 10⟩] :
        List FillEvent), 0 < f.quantity) ∧
    (∀ sp ∈ (PortfolioState.init 100).positions, sp.2.quantity ≠ 0) ∧
    (∀ l2, applyFills (PortfolioState.init 100)
        [⟨1, "A", "BUY", 1, 10⟩, ⟨2, "A", "SELL", 1, 10⟩] = some l2 →
      ∀ sp ∈ l2.positions, sp.2.quantity ≠ 0) :=
  ⟨by simp, by simp [PortfolioState.init],
   c7_position_closure (PortfolioState.init 100) _ (by simp)
     (by simp [PortfolioState.init])⟩

/-- C8: handle_market only writes latest_prices[symbol] and the equity
series; cash, positions, realized pnl, trade history and initial cash
are untouched; it is total (never raises); and a repeated call with the
same event leaves cash/positions/realized pnl unchanged, records the
identical equity value, and leaves latest_prices and the
equity-by-timestamp map unchanged. -/
theorem c8_mark_to_market_frame (l : PortfolioState) (e : MarketEvent) :
    (l.handle_market e).cash = l.cash
    ∧ (l.handle_market e).positions = l.positions
    ∧ (l.handle_market e).realized_pnl = l.realized_pnl
    ∧ (l.handle_market e).trades = l.trades
    ∧ (l.handle_market e).initial_cash = l.initial_cash
    ∧ (l.handle_market e).latest_prices = aset l.latest_prices e.symbol e.price
    ∧ (l.handle_market e).equity_by_timestamp
        = aset l.equity_by_timestamp e.timestamp
            (l.cash + positionsValue l.positions
              (aset l.latest_prices e.symbol e.price))
    ∧ (l.handle_market e).equity_curve
        = l.equity_curve ++ [l.cash + positionsValue l.positions
            (aset l.latest_prices e.symbol e.price)]
    ∧ ((l.handle_market e).handle_market e).cash = (l.handle_market e).cash
    ∧ ((l.handle_market e).handle_market e).positions
        = (l.handle_market e).positions
    ∧ ((l.handle_market e).handle_market e).realized_pnl
        = (l.handle_market e).realized_pnl
    ∧ ((l.handle_market e).handle_market e).latest_prices
        = (l.handle_market e).latest_prices
    ∧ ((l.handle_market e).handle_market e).equity_by_timestamp
        = (l.handle_market e).equity_by_timestamp
    ∧ ((l.handle_market e).handle_market e).equity_curve
        = (l.handle_market e).equity_curve
            ++ [l.cash + positionsValue l.positions
                (aset l.latest_prices e.symbol e.price)] := by
  unfold PortfolioState.handle_market
  simp [aset_aset_self]

/-- C10: handle_signal writes portfolio.latest_prices[symbol] = price
(before any check runs), for every signal — also when the signal is
rejected, since the equality holds unconditionally; every other Ledger
field (cash, positions, realized_pnl, trades, the equity series,
initial_cash) is left unchanged by admission control. -/
theorem c10_signal_mutates_latest_price (rm : RealRiskManager)
    (e : SignalEvent) :
    ((rm.handle_signal e).1).portfolio.latest_prices
        = aset rm.portfolio.latest_prices e.symbol e.price
    ∧ ((rm.handle_signal e).1).portfolio.cash = rm.portfolio.cash
    ∧ ((rm.handle_signal e).1).portfolio.positions = rm.portfolio.positions
    ∧ ((rm.handle_signal e).1).portfolio.realized_pnl
        = rm.portfolio.realized_pnl
    ∧ ((rm.handle_signal e).1).portfolio.trades = rm.portfolio.trades
    ∧ ((rm.handle_signal e).1).portfolio.equity_curve
        = rm.portfolio.equity_curve
    ∧ ((rm.handle_signal e).1).portfolio.equity_by_timestamp
        = rm.portfolio.equity_by_timestamp
    ∧ ((rm.handle_signal e).1).portfolio.initial_cash
        = rm.portfolio.initial_cash := by
  rw [handle_signal_portfolio]
  exact ⟨rfl, rfl, rfl, rfl, rfl, rfl, rfl, rfl⟩

/-- C6: the drawdown gate — peak equity starts at the construction-time
initial cash, handle_signal raises it to the running maximum, and a
signal is rejected with check recorded as "drawdown" exactly when
(peak - current_equity)/peak exceeds max_drawdown (current equity taken
after the latest-price write that opens handle_signal), provided the
running peak is positive. -/
theorem c6_drawdown_gate (rm : RealRiskManager) (e : SignalEvent)
    (hpk : 0 < max rm.peak_equity
      ((afterPriceUpdate rm e)._get_current_equity)) :
    (∀ pf fq md mps mpp mte mp,
      (RealRiskManager.mk0 pf fq md mps mpp mte mp).peak_equity
        = pf.initial_cash)
    ∧ ((rm.handle_signal e).1).peak_equity
        = max rm.peak_equity ((afterPriceUpdate rm e)._get_current_equity)
    ∧ ((∃ r, ((rm.handle_signal e).1).rejections = rm.rejections ++ [r]
          ∧ r.check = "drawdown")
        ↔ (max rm.peak_equity ((afterPriceUpdate rm e)._get_current_equity)
              - (afterPriceUpdate rm e)._get_current_equity)
            / max rm.peak_equity ((afterPriceUpdate rm e)._get_current_equity)
            > rm.max_drawdown) := by
  refine ⟨fun pf fq md mps mpp mte mp => rfl, handle_signal_peak rm e, ?_⟩
  have hcurle : (afterPriceUpdate rm e)._get_current_equity
      ≤ max rm.peak_equity ((afterPriceUpdate rm e)._get_current_equity) :=
    le_max_right _ _
  have hdd1 : ((afterPriceUpdate rm e)._check_drawdown_limit e).1
      = if (max rm.peak_equity ((afterPriceUpdate rm e)._get_current_equity)
            - (afterPriceUpdate rm e)._get_current_equity)
          / max rm.peak_equity ((afterPriceUpdate rm e)._get_current_equity)
          > rm.max_drawdown
        then (false, some "Drawdown exceeds limit") else (true, none) := by
    rw [check_drawdown_fst, drawdown_fst, afterPriceUpdate_peak,
      afterPriceUpdate_maxdd]
    rw [if_pos hpk]
    have hnp : ((afterPriceUpdate rm e)._get_current_equity -
        max rm.peak_equity ((afterPriceUpdate rm e)._get_current_equity))
        / max rm.peak_equity ((afterPriceUpdate rm e)._get_current_equity)
        ≤ 0 :=
      div_nonpos_of_nonpos_of_nonneg (sub_nonpos.mpr hcurle) hpk.le
    rw [abs_of_nonpos hnp, ← neg_div, neg_sub]
  by_cases hgt : (max rm.peak_equity
        ((afterPriceUpdate rm e)._get_current_equity)
      - (afterPriceUpdate rm e)._get_current_equity)
      / max rm.peak_equity ((afterPriceUpdate rm e)._get_current_equity)
      > rm.max_drawdown
  · have hdd2 : ((afterPriceUpdate rm e)._check_drawdown_limit e).1
        = (false, some "Drawdown exceeds limit") := by
      rw [hdd1, if_pos hgt]
    have hff : RealRiskManager.firstFailure (checksOf rm e)
        = some ("drawdown", some "Drawdown exceeds limit") := by
      simp only [checksOf]
      rw [hdd2]
      simp [RealRiskManager.firstFailure]
    constructor
    · intro _
      exact hgt
    · intro _
      refine ⟨{ timestamp := e.timestamp
                symbol := e.symbol
                direction := e.direction
                price := e.price
                reason := (some "Drawdown exceeds limit").getD ""
                check := "drawdown" }, ?_, rfl⟩
      rw [handle_signal_eq, hff]
      simp only []
      rw [afterDrawdown_rejections]
  · have hdd2 : ((afterPriceUpdate rm e)._check_drawdown_limit e).1
        = (true, none) := by
      rw [hdd1, if_neg hgt]
    have hff0 : RealRiskManager.firstFailure (checksOf rm e)
        = RealRiskManager.firstFailure
          [("position_size", (afterDrawdown rm e)._check_position_size_limit e),
           ("cash", (afterDrawdown rm e)._check_cash_availability e),
           ("position_count",
             (afterDrawdown rm e)._check_position_count_limit e)] := by
      simp only [checksOf]
      rw [hdd2]
      simp [RealRiskManager.firstFailure]
    refine ⟨?_, fun hgt2 => absurd hgt2 hgt⟩
    rintro ⟨r, hr, hcheck⟩
    exfalso
    rw [handle_signal_eq, hff0] at hr
    cases hres : RealRiskManager.firstFailure
        [("position_size", (afterDrawdown rm e)._check_position_size_limit e),
         ("cash", (afterDrawdown rm e)._check_cash_availability e),
         ("position_count",
           (afterDrawdown rm e)._check_position_count_limit e)] with
    | none =>
      rw [hres] at hr
      simp only [] at hr
      rw [afterDrawdown_rejections] at hr
      have hlen := congrArg List.length hr
      simp at hlen
    | some p =>
      obtain ⟨n, rr⟩ := p
      rw [hres] at hr
      simp only [] at hr
      rw [afterDrawdown_rejections] at hr
      have hr2 := List.append_cancel_left hr
      have hrec : ({ timestamp := e.timestamp
                     symbol := e.symbol
                     direction := e.direction
                     price := e.price
                     reason := rr.getD ""
                     check := n } : Rejection) = r := by
        simpa using hr2
      obtain ⟨p2, hmem⟩ := firstFailure_mem hres
      rw [← hrec] at hcheck
      simp only [] at hcheck
      simp only [List.mem_cons, List.not_mem_nil, or_false,
        Prod.mk.injEq] at hmem
      rcases hmem with ⟨hn, _⟩ | ⟨hn, _⟩ | ⟨hn, _⟩ <;> rw [hn] at hcheck <;>
        exact absurd hcheck (by decide)

/-- C6 witness: Scenario B — peak equity 10500, current equity 8900,
max_drawdown 0.15; the drawdown gate of c6_drawdown_gate fires and the
signal is rejected with check recorded as "drawdown". -/
theorem c6_drawdown_gate_witness :
    0 < max scenarioBrm.peak_equity
        ((afterPriceUpdate scenarioBrm scenarioBsig)._get_current_equity)
    ∧ ∃ r, ((scenarioBrm.handle_signal scenarioBsig).1).rejections
        = scenarioBrm.rejections ++ [r] ∧ r.check = "drawdown" := by
  have hcur : (afterPriceUpdate scenarioBrm scenarioBsig)._get_current_equity
      = 8900 := by
    norm_num [afterPriceUpdate, scenarioBrm, scenarioBsig,
      RealRiskManager._get_current_equity, RealRiskManager.mk0,
      PortfolioState.init, positionsValue, aset]
  have hpkv : scenarioBrm.peak_equity = 10500 := rfl
  have hmdv : scenarioBrm.max_drawdown = 3/20 := rfl
  have hpk : 0 < max scenarioBrm.peak_equity
      ((afterPriceUpdate scenarioBrm scenarioBsig)._get_current_equity) := by
    rw [hcur, hpkv]
    rw [max_eq_left (by norm_num)]
    norm_num
  refine ⟨hpk, ?_⟩
  refine ((c6_drawdown_gate scenarioBrm scenarioBsig hpk).2.2).mpr ?_
  rw [hcur, hpkv, hmdv]
  rw [max_eq_left (by norm_num)]
  norm_num

/-- C5 counterexample to the claim as stated: in Scenario C (initial
cash 500, fixed_quantity 10, BUY at 100, all other limits at their
defaults) the recorded rejection's check field is "position_size", not
"cash" — the position-size check runs before the cash check and fires
first on the order worth 200 percent of equity. -/
theorem c5_counterexample :
    (scenarioCrm.handle_signal scenarioCsig).2 = []
    ∧ ((scenarioCrm.handle_signal scenarioCsig).1).rejections.map
        Rejection.check = ["position_size"]
    ∧ ¬∃ r, ((scenarioCrm.handle_signal scenarioCsig).1).rejections = [r]
        ∧ r.check = "cash" := by
  rw [scenarioC_result]
  refine ⟨rfl, rfl, ?_⟩
  rintro ⟨r, hr, hc⟩
  simp only [List.cons.injEq, and_true] at hr
  rw [← hr] at hc
  exact absurd hc (by decide)

/-- C5 (amended): in Scenario C the signal is rejected by admission
control — no OrderEvent is produced, so no Fill is ever attempted — and
the recorded rejection's check field is "position_size" (the first
failing check in the fixed order). -/
theorem c5_scenario_c_amended :
    (scenarioCrm.handle_signal scenarioCsig).2 = []
    ∧ ∃ r, ((scenarioCrm.handle_signal scenarioCsig).1).rejections = [r]
        ∧ r.check = "position_size" := by
  rw [scenarioC_result]
  exact ⟨rfl, ⟨_, rfl, rfl⟩⟩

/-- C9: with a held symbol that has no latest price, the risk engine's
equity computation silently skips the position (valuing it at zero — the
equity equals bare cash) and the exposure sum substitutes price 0; both
are total functions with no failure path, so no fail-fast
MissingLatestPrice error exists in the admission-control code. -/
theorem c9_missing_price_valued_zero :
    missingPriceRm._get_current_equity = missingPriceRm.portfolio.cash
    ∧ missingPriceRm._get_current_equity = 100
    ∧ RealRiskManager.totalExposure missingPriceRm.portfolio.positions
        missingPriceRm.portfolio.latest_prices = 0
    ∧ alookup missingPriceRm.portfolio.latest_prices "AAPL" = none
    ∧ alookup missingPriceRm.portfolio.positions "AAPL" = some ⟨10, 50⟩ := by
  norm_num [missingPriceRm, missingPricePf, RealRiskManager.withDefaults,
    RealRiskManager.mk0, RealRiskManager._get_current_equity,
    RealRiskManager.totalExposure, PortfolioState.init, positionsValue,
    alookup]

end TradingEngine
